import Mathlib

/-!
Verification of the patient-management data layer (crudapp.py).

The single source file is a Streamlit CRUD application over one sqlite
table.  The data layer is embedded shallowly:

* the `patients` table becomes a list of `Patient` records plus the
  AUTOINCREMENT counter (`DB`); NOT NULL columns become plain `String`
  fields, nullable columns become `Option String`;
* every data-layer function of the source keeps its Python name
  (`add_patient`, `update_patient`, `search_patients`, ...) and returns
  the same observable values (the `(ok, error-message)` pairs of the
  source become `Bool × Option String`);
* SQL semantics is translated explicitly: `LIKE` becomes the
  backtracking matcher `likeMatch` (ASCII case-insensitive, with the
  `%` and `_` wildcards), `ORDER BY id DESC` becomes an insertion sort
  by descending id, the UNIQUE(email) constraint becomes the explicit
  duplicate check performed by sqlite at write time;
* the two validation regexes are translated including the Python
  semantics of `$` under `re.match`, which also matches just before a
  single trailing newline (`pyMatchDollar`).  The bracketed character
  classes of the email regex are the explicit ASCII classes written in
  it; the `\d` of the phone pattern is the Unicode decimal-digit
  category Nd (what `\d` matches in a Python str pattern), embedded as
  its table of code-point runs (`uniDigitRuns`).
-/

/-! ## Validator (crudapp.py lines 157-165) -/

/-- Python re semantics of a pattern anchored as `^core$` under `re.match`:
the match succeeds on the whole string, or on the string minus a single
trailing newline (Python `$` also matches just before a final newline). -/
def pyMatchDollar (core : List Char → Bool) (cs : List Char) : Bool :=
  core cs ||
    (match cs.getLast? with
     | some c => (c == '\n') && core cs.dropLast
     | none => false)

/-- Character class `[A-Za-z0-9._%+-]` of the email regex (local part). -/
def localChar (c : Char) : Bool :=
  c.isAlpha || c.isDigit || c == '.' || c == '_' || c == '%' || c == '+' || c == '-'

/-- Character class `[A-Za-z0-9.-]` of the email regex (domain part). -/
def domChar (c : Char) : Bool :=
  c.isAlpha || c.isDigit || c == '.' || c == '-'

/-- Matches `[A-Za-z]{2,}` against the whole list (the final label). -/
def alpha2 (cs : List Char) : Bool :=
  cs.all Char.isAlpha && decide (2 ≤ cs.length)

/-- Matches `[A-Za-z0-9.-]*\.[A-Za-z]{2,}` against the whole list
(backtracking over the position of the splitting dot). -/
def domRest : List Char → Bool
  | [] => false
  | c :: r => ((c == '.') && alpha2 r) || (domChar c && domRest r)

/-- Matches `[A-Za-z0-9.-]+\.[A-Za-z]{2,}` against the whole list. -/
def domainMatch : List Char → Bool
  | [] => false
  | c :: r => domChar c && domRest r

/-- Core of the email regex `[A-Za-z0-9._%+-]+@[A-Za-z0-9.-]+\.[A-Za-z]{2,}`
matched against the whole list.  Since `@` is in neither character class,
the local part is exactly the maximal leading run of local characters and
the next character must be the `@`. -/
def emailCore (cs : List Char) : Bool :=
  (!(cs.takeWhile localChar).isEmpty) &&
    (match cs.dropWhile localChar with
     | c :: dom => (c == '@') && domainMatch dom
     | [] => false)

/-- Source `is_valid_email`: `re.match(r"^[A-Za-z0-9._%+-]+@[A-Za-z0-9.-]+\.[A-Za-z]{2,}$", email)`. -/
def is_valid_email (s : String) : Bool :=
  pyMatchDollar emailCore s.data

/-- The maximal code-point runs of the Unicode decimal-digit category
Nd (Unicode 14.0.0, the database of the CPython 3.11 running the
source).  A Python str pattern `\d` matches exactly the characters of
these runs: the ASCII digits and the decimal digits of the other
scripts (Arabic-Indic, Devanagari, fullwidth, mathematical, ...). -/
def uniDigitRuns : List (Nat × Nat) := [
    (0x30, 0x39), (0x660, 0x669), (0x6F0, 0x6F9), (0x7C0, 0x7C9),
    (0x966, 0x96F), (0x9E6, 0x9EF), (0xA66, 0xA6F), (0xAE6, 0xAEF),
    (0xB66, 0xB6F), (0xBE6, 0xBEF), (0xC66, 0xC6F), (0xCE6, 0xCEF),
    (0xD66, 0xD6F), (0xDE6, 0xDEF), (0xE50, 0xE59), (0xED0, 0xED9),
    (0xF20, 0xF29), (0x1040, 0x1049), (0x1090, 0x1099), (0x17E0, 0x17E9),
    (0x1810, 0x1819), (0x1946, 0x194F), (0x19D0, 0x19D9), (0x1A80, 0x1A89),
    (0x1A90, 0x1A99), (0x1B50, 0x1B59), (0x1BB0, 0x1BB9), (0x1C40, 0x1C49),
    (0x1C50, 0x1C59), (0xA620, 0xA629), (0xA8D0, 0xA8D9), (0xA900, 0xA909),
    (0xA9D0, 0xA9D9), (0xA9F0, 0xA9F9), (0xAA50, 0xAA59), (0xABF0, 0xABF9),
    (0xFF10, 0xFF19), (0x104A0, 0x104A9), (0x10D30, 0x10D39), (0x11066, 0x1106F),
    (0x110F0, 0x110F9), (0x11136, 0x1113F), (0x111D0, 0x111D9), (0x112F0, 0x112F9),
    (0x11450, 0x11459), (0x114D0, 0x114D9), (0x11650, 0x11659), (0x116C0, 0x116C9),
    (0x11730, 0x11739), (0x118E0, 0x118E9), (0x11950, 0x11959), (0x11C50, 0x11C59),
    (0x11D50, 0x11D59), (0x11DA0, 0x11DA9), (0x16A60, 0x16A69), (0x16AC0, 0x16AC9),
    (0x16B50, 0x16B59), (0x1D7CE, 0x1D7FF), (0x1E140, 0x1E149), (0x1E2F0, 0x1E2F9),
    (0x1E950, 0x1E959), (0x1FBF0, 0x1FBF9)]

/-- The `\d` class of the phone regex: a Unicode decimal digit. -/
def uniDigit (c : Char) : Bool :=
  uniDigitRuns.any fun p => decide (p.1 ≤ c.toNat) && decide (c.toNat ≤ p.2)

/-- Matches `\d{10,15}` against the whole list. -/
def phoneDigits (ds : List Char) : Bool :=
  ds.all uniDigit && decide (10 ≤ ds.length) && decide (ds.length ≤ 15)

/-- Core of the phone regex `\+?\d{10,15}` matched against the whole list. -/
def phoneCore (cs : List Char) : Bool :=
  match cs with
  | [] => phoneDigits []
  | c :: r => if c = '+' then phoneDigits r else phoneDigits (c :: r)

/-- Source `is_valid_phone`: `re.match(r"^\+?\d{10,15}$", phone)`. -/
def is_valid_phone (s : String) : Bool :=
  pyMatchDollar phoneCore s.data

/-! ## Data model -/

/-- A row of the `patients` table.  `first_name`, `last_name`, `email` are
NOT NULL columns, the rest are nullable (`date_of_birth`/`date_of_entry`
are the columns added by the migration). -/
structure Patient where
  id : Nat
  first_name : String
  last_name : String
  address : Option String
  email : String
  phone : Option String
  date_of_birth : Option String
  date_of_entry : Option String
deriving DecidableEq, Repr

/-- The persistent store: the rows of the `patients` table in insertion
order, plus the AUTOINCREMENT counter for the next id. -/
structure DB where
  rows : List Patient
  nextId : Nat
deriving DecidableEq, Repr

/-- A freshly created table: no rows, AUTOINCREMENT starts at 1. -/
def emptyDB : DB := ⟨[], 1⟩

/-- Store well-formedness: every stored id is below the AUTOINCREMENT
counter (sqlite guarantees this; ids are never reused). -/
def DB.WF (db : DB) : Prop :=
  ∀ r ∈ db.rows, r.id < db.nextId

/-- The backfill invariant of the spec: no stored row has a null
`date_of_entry`. -/
def NoNullDoe (db : DB) : Prop :=
  ∀ r ∈ db.rows, r.date_of_entry ≠ none

/-! ## Schema manager (crudapp.py lines 15-55) -/

/-- Source `migrate_db`: the two ALTER TABLE steps are represented by the
(optional) date columns of `Patient`; the backfill runs
`UPDATE patients SET date_of_entry = today WHERE date_of_entry IS NULL`
with `today` the process-clock ISO date at migration time. -/
def migrate_db (today : String) (db : DB) : DB :=
  { db with
    rows := db.rows.map fun r =>
      match r.date_of_entry with
      | none => { r with date_of_entry := some today }
      | some _ => r }

/-- Source `init_db`: CREATE TABLE IF NOT EXISTS (which preserves any
existing rows), then `migrate_db`.  On a fresh store this is
`migrate_db today emptyDB`. -/
def init_db (today : String) (db : DB) : DB :=
  migrate_db today db

/-! ## Record store (crudapp.py lines 57-153) -/

/-- Source `add_patient`: INSERT; on the UNIQUE(email) constraint
violation sqlite raises IntegrityError and the function returns
`(False, "Email already exists.")`; otherwise the row is inserted with
the next AUTOINCREMENT id and the function returns `(True, None)`. -/
def add_patient (fn ln : String) (addr : Option String) (em : String)
    (ph dob doe : Option String) (db : DB) : (Bool × Option String) × DB :=
  if db.rows.any (fun r => r.email == em) then
    ((false, some "Email already exists."), db)
  else
    ((true, none),
      { rows := db.rows ++ [⟨db.nextId, fn, ln, addr, em, ph, dob, doe⟩],
        nextId := db.nextId + 1 })

/-- Relation `ORDER BY id DESC` (larger ids first). -/
def idDesc (a b : Patient) : Prop := b.id ≤ a.id

instance : DecidableRel idDesc := fun a b => Nat.decLe b.id a.id

instance : IsTotal Patient idDesc := ⟨fun a b => Nat.le_total b.id a.id⟩

instance : IsTrans Patient idDesc := ⟨fun _ _ _ h1 h2 => Nat.le_trans h2 h1⟩

/-- Source `get_all_patients`: `SELECT * FROM patients ORDER BY id DESC`. -/
def get_all_patients (db : DB) : List Patient :=
  List.insertionSort idDesc db.rows

/-- Source `get_patient_by_id`: `SELECT * FROM patients WHERE id=?` with
`fetchone` (first matching row, if any). -/
def get_patient_by_id (pid : Nat) (db : DB) : Option Patient :=
  db.rows.find? (fun r => r.id == pid)

/-- Source `update_patient`: `UPDATE patients SET ... WHERE id=?`.
When no row has the id the statement matches nothing and succeeds as a
no-op.  When a row matches, sqlite raises the UNIQUE(email)
IntegrityError exactly when the new email equals the email of a
different row, and the function returns `(False, "Email already
exists.")`; otherwise every field but the id is overwritten. -/
def update_patient (pid : Nat) (fn ln : String) (addr : Option String) (em : String)
    (ph dob doe : Option String) (db : DB) : (Bool × Option String) × DB :=
  if db.rows.any (fun r => r.id == pid) then
    if db.rows.any (fun r => !(r.id == pid) && (r.email == em)) then
      ((false, some "Email already exists."), db)
    else
      ((true, none),
        { db with
          rows := db.rows.map fun r =>
            if r.id == pid then
              { r with first_name := fn, last_name := ln, address := addr,
                       email := em, phone := ph, date_of_birth := dob,
                       date_of_entry := doe }
            else r })
  else ((true, none), db)

/-- Source `delete_patient`: `DELETE FROM patients WHERE id=?`; deleting
an absent id removes nothing.  The AUTOINCREMENT counter is not reset. -/
def delete_patient (pid : Nat) (db : DB) : DB :=
  { db with rows := db.rows.filter fun r => !(r.id == pid) }

/-- Sqlite `LIKE` matcher: `%` matches any sequence, `_` any single
character, and plain characters compare ASCII-case-insensitively
(`Char.toLower` lowers exactly the ASCII uppercase letters). -/
def likeMatch : List Char → List Char → Bool
  | [], cs => cs.isEmpty
  | p :: ps, cs =>
    if p = '%' then cs.tails.any (fun s => likeMatch ps s)
    else if p = '_' then
      (match cs with
       | [] => false
       | _ :: cs2 => likeMatch ps cs2)
    else
      (match cs with
       | [] => false
       | c :: cs2 => (p.toLower = c.toLower) && likeMatch ps cs2)

/-- The LIKE pattern `f"%{query}%"` of the free-text search. -/
def likePat (q : String) : List Char :=
  '%' :: (q.data ++ ['%'])

/-- The free-text disjunction of `search_patients`:
`first_name LIKE ? OR last_name LIKE ? OR email LIKE ? OR phone LIKE ?`.
A NULL phone makes its LIKE evaluate to NULL, which does not satisfy
the disjunct. -/
def freeTextLike (q : String) (r : Patient) : Bool :=
  likeMatch (likePat q) r.first_name.data ||
  likeMatch (likePat q) r.last_name.data ||
  likeMatch (likePat q) r.email.data ||
  (match r.phone with
   | some p => likeMatch (likePat q) p.data
   | none => false)

/-- The last-name clause of `search_patients`: `last_name = ?` is added
exactly when the filter is truthy (set and non-empty) and not the
sentinel "All". -/
def lnClauseB (lnf : Option String) (r : Patient) : Bool :=
  match lnf with
  | none => true
  | some l => if l != "" && l != "All" then r.last_name == l else true

/-- The email-domain clause of `search_patients`:
`email LIKE '%@' + filter` is added exactly when the filter is truthy
and not the sentinel "All". -/
def edClauseB (edf : Option String) (r : Patient) : Bool :=
  match edf with
  | none => true
  | some s => if s != "" && s != "All" then likeMatch ('%' :: '@' :: s.data) r.email.data else true

/-- The WHERE clause built by `search_patients`: the free-text clause is
added when the query string is truthy (non-empty), then the last-name
and email-domain clauses, all AND-combined. -/
def searchKeep (q : String) (lnf edf : Option String) (r : Patient) : Bool :=
  ((q == "") || freeTextLike q r) && lnClauseB lnf r && edClauseB edf r

/-- Source `search_patients`: the AND of the active clauses,
`ORDER BY id DESC`. -/
def search_patients (q : String) (lnf edf : Option String) (db : DB) : List Patient :=
  List.insertionSort idDesc (db.rows.filter (searchKeep q lnf edf))

/-- Python `email.split("@")[1]` for an email containing `@`: the
characters strictly between the first `@` and the following `@` (or the
end of the string). -/
def emailDomain (e : String) : Option String :=
  match e.data.dropWhile (fun c => !(c == '@')) with
  | [] => none
  | _ :: t => some (String.mk (t.takeWhile (fun c => !(c == '@'))))

/-- Source `get_all_email_domains`: SELECT DISTINCT email, collect
`split("@")[1]` of every email containing `@` into a set, return it
sorted (Python `sorted` on strings is the lexicographic order on code
points, which is the `String` linear order). -/
def get_all_email_domains (db : DB) : List String :=
  List.insertionSort (fun a b => a ≤ b)
    (((db.rows.map fun r => r.email).dedup.filterMap emailDomain).dedup)

/-! ## Spec-side notions (written from the words of the specification) -/

/-- ASCII lowering of a character list, for the case-insensitivity of
the LIKE-based filters. -/
def lowerL (cs : List Char) : List Char :=
  cs.map Char.toLower

/-- True when the list contains neither LIKE wildcard. -/
def noWild (cs : List Char) : Bool :=
  cs.all fun c => !(c == '%') && !(c == '_')

/-- Modelled from the spec (section 4.1): the phone grammar, an optional
leading plus followed by exactly 10 to 15 decimal digits and nothing
else.  Decimal digits are the Unicode decimal digits (category Nd),
which is also what the source regex `\d` matches. -/
def PhoneShapeL (cs : List Char) : Prop :=
  ∃ ds, (cs = ds ∨ cs = '+' :: ds) ∧ (∀ c ∈ ds, uniDigit c = true) ∧
    10 ≤ ds.length ∧ ds.length ≤ 15

/-- Modelled from the spec (section 4.1): the email grammar, a non-empty
local part over `[A-Za-z0-9._%+-]`, an `@`, a non-empty domain over
`[A-Za-z0-9.-]`, a dot, and a final label of at least two letters,
nothing else. -/
def EmailShapeL (cs : List Char) : Prop :=
  ∃ x u v, cs = x ++ '@' :: (u ++ '.' :: v) ∧
    x ≠ [] ∧ (∀ c ∈ x, localChar c = true) ∧
    u ≠ [] ∧ (∀ c ∈ u, domChar c = true) ∧
    (∀ c ∈ v, c.isAlpha = true) ∧ 2 ≤ v.length

/-! ## Concrete stores used by witnesses and counterexamples -/

def pA : Patient := ⟨1, "Ada", "Smith", some "1 Elm St", "a@x.com", some "1234567890", some "1990-01-01", some "2024-01-01"⟩

def pB : Patient := ⟨2, "Bea", "Smith", none, "b@y.com", none, none, some "2024-01-02"⟩

def pC : Patient := ⟨3, "Cal", "Jones", none, "c@x.com", none, none, some "2024-01-03"⟩

def dbABC : DB := ⟨[pA, pB, pC], 4⟩

def pZ : Patient := ⟨1, "Ann", "Lee", none, "ann@clinic.org", none, none, some "2024-01-01"⟩

def dbZ : DB := ⟨[pZ], 2⟩

def pSeed : Patient := ⟨5, "Eve", "Fox", none, "e@f.co", none, none, some "2024-01-01"⟩

def dbSeed : DB := ⟨[pSeed], 6⟩

def pNull : Patient := ⟨1, "Old", "Row", none, "old@x.com", none, none, none⟩

def dbNull : DB := ⟨[pNull], 2⟩

example : is_valid_phone "+12025550173" = true := by decide
example : is_valid_phone "12345" = false := by decide
example : is_valid_phone "٠١٢٣٤٥٦٧٨٩" = true := by decide
example : uniDigit '²' = false := by decide
example : is_valid_email "ada@x.com" = true := by decide
example : is_valid_email "ada@x" = false := by decide
example : search_patients "" (some "Smith") (some "x.com") dbABC = [pA] := by decide
example : get_all_email_domains dbZ = ["clinic.org"] := by rfl
example : get_all_patients dbABC = [pC, pB, pA] := by decide

/-! ## Helper lemmas: Python dollar anchor -/

lemma pyMatchDollar_iff (core : List Char → Bool) (cs : List Char) :
    pyMatchDollar core cs = true ↔
      (core cs = true ∨ ∃ t, cs = t ++ ['\n'] ∧ core t = true) := by
  rcases cs.eq_nil_or_concat with h | ⟨L, b, h⟩
  · subst h
    simp only [pyMatchDollar, List.getLast?_nil, Bool.or_eq_true]
    constructor
    · rintro (h | h)
      · exact Or.inl h
      · exact absurd h (by simp)
    · rintro (h | ⟨t, ht, _⟩)
      · exact Or.inl h
      · exact absurd ht (by cases t <;> simp)
  · subst h
    rw [List.concat_eq_append]
    simp only [pyMatchDollar, List.getLast?_concat, List.dropLast_concat,
      Bool.or_eq_true, Bool.and_eq_true, beq_iff_eq]
    constructor
    · rintro (h | ⟨hb, hL⟩)
      · exact Or.inl h
      · exact Or.inr ⟨L, by rw [hb], hL⟩
    · rintro (h | ⟨t, ht, hcore⟩)
      · exact Or.inl h
      · have h1 := congrArg List.dropLast ht
        have h2 := congrArg List.getLast? ht
        simp only [List.dropLast_concat] at h1
        simp only [List.getLast?_concat] at h2
        cases h2
        cases h1
        exact Or.inr ⟨rfl, hcore⟩

/-! ## Helper lemmas: the phone regex core -/

lemma phoneDigits_iff (ds : List Char) :
    phoneDigits ds = true ↔
      (∀ c ∈ ds, uniDigit c = true) ∧ 10 ≤ ds.length ∧ ds.length ≤ 15 := by
  simp [phoneDigits, List.all_eq_true, and_assoc]

lemma phoneCore_iff (cs : List Char) : phoneCore cs = true ↔ PhoneShapeL cs := by
  cases cs with
  | nil =>
    constructor
    · intro h
      exact absurd h (by decide)
    · rintro ⟨ds, (h | h), _, h10, _⟩
      · cases h
        exact absurd h10 (by decide)
      · exact absurd h (by simp)
  | cons c r =>
    by_cases hc : c = '+'
    · subst hc
      rw [show phoneCore ('+' :: r) = phoneDigits r from by simp [phoneCore]]
      rw [phoneDigits_iff]
      constructor
      · rintro ⟨hd, h10, h15⟩
        exact ⟨r, Or.inr rfl, hd, h10, h15⟩
      · rintro ⟨ds, (h | h), hd, h10, h15⟩
        · have : uniDigit '+' = true := hd '+' (by rw [← h]; exact List.mem_cons_self _ _)
          exact absurd this (by decide)
        · cases h
          exact ⟨hd, h10, h15⟩
    · rw [show phoneCore (c :: r) = phoneDigits (c :: r) from by simp [phoneCore, hc]]
      rw [phoneDigits_iff]
      constructor
      · rintro ⟨hd, h10, h15⟩
        exact ⟨c :: r, Or.inl rfl, hd, h10, h15⟩
      · rintro ⟨ds, (h | h), hd, h10, h15⟩
        · cases h
          exact ⟨hd, h10, h15⟩
        · exact absurd (List.head_eq_of_cons_eq h) hc

/-! ## Helper lemmas: the email regex core -/

lemma alpha2_iff (cs : List Char) :
    alpha2 cs = true ↔ (∀ c ∈ cs, c.isAlpha = true) ∧ 2 ≤ cs.length := by
  simp [alpha2, List.all_eq_true]

lemma domRest_iff (cs : List Char) :
    domRest cs = true ↔
      ∃ u v, cs = u ++ '.' :: v ∧ (∀ c ∈ u, domChar c = true) ∧
        (∀ c ∈ v, c.isAlpha = true) ∧ 2 ≤ v.length := by
  induction cs with
  | nil =>
    constructor
    · intro h
      exact absurd h (by decide)
    · rintro ⟨u, v, h, -⟩
      exact absurd h (by cases u <;> simp)
  | cons c r ih =>
    simp only [domRest, Bool.or_eq_true, Bool.and_eq_true, beq_iff_eq]
    constructor
    · rintro (⟨hc, ha⟩ | ⟨hc, hrest⟩)
      · obtain ⟨hv, h2⟩ := (alpha2_iff r).mp ha
        exact ⟨[], r, by simp [hc], by simp, hv, h2⟩
      · obtain ⟨u, v, hr, hu, hv, h2⟩ := ih.mp hrest
        refine ⟨c :: u, v, by simp [hr], ?_, hv, h2⟩
        intro a ha
        rcases List.mem_cons.mp ha with h | h
        · cases h; exact hc
        · exact hu a h
    · rintro ⟨u, v, hcs, hu, hv, h2⟩
      cases u with
      | nil =>
        simp only [List.nil_append, List.cons.injEq] at hcs
        obtain ⟨hc, hr⟩ := hcs
        exact Or.inl ⟨hc, by rw [hr]; exact (alpha2_iff v).mpr ⟨hv, h2⟩⟩
      | cons a u2 =>
        simp only [List.cons_append, List.cons.injEq] at hcs
        obtain ⟨hc, hr⟩ := hcs
        cases hc
        refine Or.inr ⟨hu c (List.mem_cons_self _ _), ih.mpr ⟨u2, v, hr, ?_, hv, h2⟩⟩
        intro a ha
        exact hu a (List.mem_cons_of_mem _ ha)

lemma domainMatch_iff (cs : List Char) :
    domainMatch cs = true ↔
      ∃ u v, cs = u ++ '.' :: v ∧ u ≠ [] ∧ (∀ c ∈ u, domChar c = true) ∧
        (∀ c ∈ v, c.isAlpha = true) ∧ 2 ≤ v.length := by
  cases cs with
  | nil =>
    constructor
    · intro h
      exact absurd h (by decide)
    · rintro ⟨u, v, h, -⟩
      exact absurd h (by cases u <;> simp)
  | cons c r =>
    simp only [domainMatch, Bool.and_eq_true]
    rw [domRest_iff]
    constructor
    · rintro ⟨hc, u, v, hr, hu, hv, h2⟩
      refine ⟨c :: u, v, by simp [hr], by simp, ?_, hv, h2⟩
      intro a ha
      rcases List.mem_cons.mp ha with h | h
      · cases h; exact hc
      · exact hu a h
    · rintro ⟨u, v, hcs, hne, hu, hv, h2⟩
      cases u with
      | nil => exact absurd rfl hne
      | cons a u2 =>
        simp only [List.cons_append, List.cons.injEq] at hcs
        obtain ⟨hc, hr⟩ := hcs
        cases hc
        refine ⟨hu c (List.mem_cons_self _ _), u2, v, hr, ?_, hv, h2⟩
        intro a ha
        exact hu a (List.mem_cons_of_mem _ ha)

lemma takeWhile_dropWhile_of_append (p : Char → Bool) (x : List Char) (c : Char)
    (y : List Char) (hx : ∀ a ∈ x, p a = true) (hc : p c = false) :
    (x ++ c :: y).takeWhile p = x ∧ (x ++ c :: y).dropWhile p = c :: y := by
  induction x with
  | nil => simp [List.takeWhile_cons, List.dropWhile_cons, hc]
  | cons a x ih =>
    have ha : p a = true := hx a (List.mem_cons_self _ _)
    have := ih fun b hb => hx b (List.mem_cons_of_mem _ hb)
    simp [List.takeWhile_cons, List.dropWhile_cons, ha, this.1, this.2]

lemma emailCore_iff (cs : List Char) : emailCore cs = true ↔ EmailShapeL cs := by
  constructor
  · intro h
    simp only [emailCore, Bool.and_eq_true] at h
    obtain ⟨h1, h2⟩ := h
    cases hrest : cs.dropWhile localChar with
    | nil => rw [hrest] at h2; exact absurd h2 (by simp)
    | cons c dom =>
      rw [hrest] at h2
      simp only [Bool.and_eq_true, beq_iff_eq] at h2
      obtain ⟨hc, hd⟩ := h2
      cases hc
      obtain ⟨u, v, hdom, hne, hu, hv, h2v⟩ := (domainMatch_iff dom).mp hd
      refine ⟨cs.takeWhile localChar, u, v, ?_, ?_, ?_, hne, hu, hv, h2v⟩
      · conv_lhs => rw [← List.takeWhile_append_dropWhile localChar cs]
        rw [hrest, hdom]
      · intro hnil
        rw [hnil] at h1
        exact absurd h1 (by decide)
      · intro a ha
        exact List.mem_takeWhile_imp ha
  · rintro ⟨x, u, v, rfl, hx, hxl, hune, hud, hv, h2⟩
    have hAt : localChar '@' = false := by decide
    obtain ⟨ht, hd⟩ := takeWhile_dropWhile_of_append localChar x '@' (u ++ '.' :: v) hxl hAt
    simp only [emailCore, ht, hd, Bool.and_eq_true, beq_self_eq_true, true_and]
    refine ⟨by cases x with | nil => exact absurd rfl hx | cons a y => simp, ?_⟩
    exact (domainMatch_iff _).mpr ⟨u, v, rfl, hune, hud, hv, h2⟩

/-! ## Helper lemmas: the LIKE matcher -/

lemma noWild_cons {p : Char} {ps : List Char} (h : noWild (p :: ps) = true) :
    p ≠ '%' ∧ p ≠ '_' ∧ noWild ps = true := by
  simp only [noWild, List.all_cons, Bool.and_eq_true, Bool.not_eq_true',
    beq_eq_false_iff_ne, ne_eq] at h
  exact ⟨h.1.1, h.1.2, h.2⟩

lemma like_wild_iff (ps cs : List Char) :
    likeMatch ('%' :: ps) cs = true ↔ ∃ s, s <:+ cs ∧ likeMatch ps s = true := by
  rw [show likeMatch ('%' :: ps) cs = cs.tails.any (fun s => likeMatch ps s) from by
    simp [likeMatch]]
  rw [List.any_eq_true]
  constructor
  · rintro ⟨s, hs, h⟩
    exact ⟨s, (List.mem_tails _ _).mp hs, h⟩
  · rintro ⟨s, hs, h⟩
    exact ⟨s, (List.mem_tails _ _).mpr hs, h⟩

lemma like_plain_iff (ps : List Char) : ∀ cs, noWild ps = true →
    (likeMatch ps cs = true ↔ lowerL ps = lowerL cs) := by
  induction ps with
  | nil =>
    intro cs _
    cases cs <;> simp [likeMatch, lowerL]
  | cons p ps ih =>
    intro cs h
    obtain ⟨h1, h2, h3⟩ := noWild_cons h
    cases cs with
    | nil =>
      rw [show likeMatch (p :: ps) [] = false from by simp [likeMatch, h1, h2]]
      simp [lowerL]
    | cons c cs2 =>
      rw [show likeMatch (p :: ps) (c :: cs2)
            = (decide (p.toLower = c.toLower) && likeMatch ps cs2) from by
        simp [likeMatch, h1, h2]]
      simp only [Bool.and_eq_true, decide_eq_true_eq, lowerL, List.map_cons,
        List.cons.injEq]
      exact and_congr Iff.rfl (ih cs2 h3)

lemma like_plainPct_iff (qs : List Char) : ∀ cs, noWild qs = true →
    (likeMatch (qs ++ ['%']) cs = true ↔ lowerL qs <+: lowerL cs) := by
  induction qs with
  | nil =>
    intro cs _
    have hL : likeMatch ([] ++ ['%']) cs = true := by
      rw [List.nil_append]
      rw [show likeMatch ['%'] cs = cs.tails.any (fun s => likeMatch [] s) from by
        simp [likeMatch]]
      exact List.any_eq_true.mpr ⟨[], (List.mem_tails _ _).mpr (List.nil_suffix), by
        simp [likeMatch]⟩
    have hR : lowerL [] <+: lowerL cs := by
      simp [lowerL]
    exact iff_of_true hL hR
  | cons q qs ih =>
    intro cs h
    obtain ⟨h1, h2, h3⟩ := noWild_cons h
    rw [List.cons_append]
    cases cs with
    | nil =>
      rw [show likeMatch (q :: (qs ++ ['%'])) [] = false from by simp [likeMatch, h1, h2]]
      simp [lowerL]
    | cons c cs2 =>
      rw [show likeMatch (q :: (qs ++ ['%'])) (c :: cs2)
            = (decide (q.toLower = c.toLower) && likeMatch (qs ++ ['%']) cs2) from by
        simp [likeMatch, h1, h2]]
      simp only [Bool.and_eq_true, decide_eq_true_eq, lowerL, List.map_cons]
      rw [List.cons_prefix_cons]
      exact and_congr Iff.rfl (ih cs2 h3)

lemma suffix_prefix_occurs (w : List Char) : ∀ cs : List Char,
    (∃ s, s <:+ cs ∧ w <+: lowerL s) ↔ w <:+: lowerL cs := by
  intro cs
  induction cs with
  | nil =>
    simp only [lowerL, List.map_nil]
    constructor
    · rintro ⟨s, hs, hp⟩
      have hs0 : s = [] := by simpa using hs
      subst hs0
      have hw : w = [] := by simpa [lowerL] using hp
      subst hw
      exact ⟨[], [], rfl⟩
    · intro h
      have hw : w = [] := by simpa using h
      subst hw
      exact ⟨[], List.nil_suffix, by simp [lowerL]⟩
  | cons c cs2 ih =>
    have step : (∃ s, s <:+ (c :: cs2) ∧ w <+: lowerL s)
        ↔ (w <+: lowerL (c :: cs2) ∨ ∃ s, s <:+ cs2 ∧ w <+: lowerL s) := by
      constructor
      · rintro ⟨s, hs, hp⟩
        rcases List.suffix_cons_iff.mp hs with h | h
        · subst h
          exact Or.inl hp
        · exact Or.inr ⟨s, h, hp⟩
      · rintro (h | ⟨s, hs, hp⟩)
        · exact ⟨c :: cs2, List.suffix_refl _, h⟩
        · exact ⟨s, List.suffix_cons_iff.mpr (Or.inr hs), hp⟩
    rw [step, ih]
    rw [show lowerL (c :: cs2) = c.toLower :: lowerL cs2 from rfl]
    exact (List.infix_cons_iff).symm

lemma suffix_lower_iff (w : List Char) : ∀ cs : List Char,
    (∃ s, s <:+ cs ∧ w = lowerL s) ↔ w <:+ lowerL cs := by
  intro cs
  induction cs with
  | nil =>
    simp only [lowerL, List.map_nil]
    constructor
    · rintro ⟨s, hs, hw⟩
      have hs0 : s = [] := by simpa using hs
      subst hs0
      simpa [lowerL] using hw
    · intro h
      have hw : w = [] := by simpa using h
      subst hw
      exact ⟨[], List.nil_suffix, by simp [lowerL]⟩
  | cons c cs2 ih =>
    have step : (∃ s, s <:+ (c :: cs2) ∧ w = lowerL s)
        ↔ (w = lowerL (c :: cs2) ∨ ∃ s, s <:+ cs2 ∧ w = lowerL s) := by
      constructor
      · rintro ⟨s, hs, hp⟩
        rcases List.suffix_cons_iff.mp hs with h | h
        · subst h
          exact Or.inl hp
        · exact Or.inr ⟨s, h, hp⟩
      · rintro (h | ⟨s, hs, hp⟩)
        · exact ⟨c :: cs2, List.suffix_refl _, h⟩
        · exact ⟨s, List.suffix_cons_iff.mpr (Or.inr hs), hp⟩
    rw [step, ih]
    rw [show lowerL (c :: cs2) = c.toLower :: lowerL cs2 from rfl]
    exact (List.suffix_cons_iff).symm

lemma like_substring_iff (qs cs : List Char) (h : noWild qs = true) :
    likeMatch ('%' :: (qs ++ ['%'])) cs = true ↔ lowerL qs <:+: lowerL cs :=
  (like_wild_iff (qs ++ ['%']) cs).trans
    ((exists_congr fun s => and_congr_right fun _ => like_plainPct_iff qs s h).trans
      (suffix_prefix_occurs (lowerL qs) cs))

lemma like_endsWith_iff (ps cs : List Char) (h : noWild ps = true) :
    likeMatch ('%' :: ps) cs = true ↔ lowerL ps <:+ lowerL cs :=
  (like_wild_iff ps cs).trans
    ((exists_congr fun s => and_congr_right fun _ => like_plain_iff ps s h).trans
      (suffix_lower_iff (lowerL ps) cs))

/-! ## Helper lemmas: search clauses -/

lemma freeTextLike_iff (q : String) (r : Patient) (hq : noWild q.data = true) :
    freeTextLike q r = true ↔
      (lowerL q.data <:+: lowerL r.first_name.data ∨
       lowerL q.data <:+: lowerL r.last_name.data ∨
       lowerL q.data <:+: lowerL r.email.data ∨
       (∃ p, r.phone = some p ∧ lowerL q.data <:+: lowerL p.data)) := by
  simp only [freeTextLike, likePat, Bool.or_eq_true]
  rw [like_substring_iff _ _ hq, like_substring_iff _ _ hq, like_substring_iff _ _ hq]
  cases hp : r.phone with
  | none => simp [or_assoc]
  | some p =>
    rw [like_substring_iff _ _ hq]
    simp [or_assoc]

lemma lnClause_iff (lnf : Option String) (r : Patient) :
    lnClauseB lnf r = true ↔
      (∀ l, lnf = some l → l ≠ "" → l ≠ "All" → r.last_name = l) := by
  cases lnf with
  | none => simp [lnClauseB]
  | some l =>
    by_cases h1 : l = ""
    · subst h1
      simp [lnClauseB]
    · by_cases h2 : l = "All"
      · subst h2
        simp [lnClauseB]
      · simp [lnClauseB, h1, h2, beq_iff_eq]

lemma edClause_iff (edf : Option String) (r : Patient)
    (hed : ∀ s, edf = some s → noWild s.data = true) :
    edClauseB edf r = true ↔
      (∀ s, edf = some s → s ≠ "" → s ≠ "All" →
        lowerL ('@' :: s.data) <:+ lowerL r.email.data) := by
  cases edf with
  | none => simp [edClauseB]
  | some s =>
    have hs := hed s rfl
    have hw : noWild ('@' :: s.data) = true := by
      simp only [noWild, List.all_cons, Bool.and_eq_true] at hs ⊢
      exact ⟨by decide, hs⟩
    by_cases h1 : s = ""
    · subst h1
      simp [edClauseB]
    · by_cases h2 : s = "All"
      · subst h2
        simp [edClauseB]
      · have hcond : (s != "" && s != "All") = true := by simp [h1, h2]
        constructor
        · intro h s2 hs2 hh1 hh2
          cases hs2
          have h3 : likeMatch ('%' :: ('@' :: s.data)) r.email.data = true := by
            simpa [edClauseB, hcond] using h
          exact (like_endsWith_iff ('@' :: s.data) r.email.data hw).mp h3
        · intro h
          have h3 := h s rfl h1 h2
          simp only [edClauseB, hcond, if_true]
          exact (like_endsWith_iff ('@' :: s.data) r.email.data hw).mpr h3

lemma searchKeep_iff (q : String) (lnf edf : Option String) (r : Patient)
    (hq : noWild q.data = true) (hed : ∀ s, edf = some s → noWild s.data = true) :
    searchKeep q lnf edf r = true ↔
      ((q = "" ∨
        lowerL q.data <:+: lowerL r.first_name.data ∨
        lowerL q.data <:+: lowerL r.last_name.data ∨
        lowerL q.data <:+: lowerL r.email.data ∨
        (∃ p, r.phone = some p ∧ lowerL q.data <:+: lowerL p.data)) ∧
       (∀ l, lnf = some l → l ≠ "" → l ≠ "All" → r.last_name = l) ∧
       (∀ s, edf = some s → s ≠ "" → s ≠ "All" →
         lowerL ('@' :: s.data) <:+ lowerL r.email.data)) := by
  unfold searchKeep
  rw [Bool.and_eq_true, Bool.and_eq_true, Bool.or_eq_true, beq_iff_eq]
  rw [freeTextLike_iff q r hq, lnClause_iff lnf r, edClause_iff edf r hed]
  exact and_assoc

lemma mem_search_iff (q : String) (lnf edf : Option String) (db : DB) (r : Patient) :
    r ∈ search_patients q lnf edf db ↔ r ∈ db.rows ∧ searchKeep q lnf edf r = true := by
  unfold search_patients
  rw [(List.perm_insertionSort idDesc _).mem_iff]
  exact List.mem_filter

/-! ## Helper lemmas: store operations -/

lemma add_patient_fresh (fn ln : String) (addr : Option String) (em : String)
    (ph dob doe : Option String) (db : DB) (hfresh : ∀ r ∈ db.rows, r.email ≠ em) :
    add_patient fn ln addr em ph dob doe db =
      ((true, none),
       ⟨db.rows ++ [⟨db.nextId, fn, ln, addr, em, ph, dob, doe⟩], db.nextId + 1⟩) := by
  have hany : (db.rows.any fun r => r.email == em) = false := by
    rw [List.any_eq_false]
    intro r hr
    simpa using hfresh r hr
  simp [add_patient, hany]

lemma find?_append_none {α : Type} (p : α → Bool) (l1 l2 : List α)
    (h : ∀ x ∈ l1, p x = false) : (l1 ++ l2).find? p = l2.find? p := by
  induction l1 with
  | nil => simp
  | cons a l ih =>
    have ha := h a (List.mem_cons_self _ _)
    rw [List.cons_append]
    rw [show ((a :: (l ++ l2)).find? p) = (l ++ l2).find? p from by
      simp [List.find?_cons, ha]]
    exact ih fun x hx => h x (List.mem_cons_of_mem _ hx)

lemma get_after_add (fn ln : String) (addr : Option String) (em : String)
    (ph dob doe : Option String) (db : DB) (hWF : DB.WF db)
    (hfresh : ∀ r ∈ db.rows, r.email ≠ em) :
    get_patient_by_id db.nextId (add_patient fn ln addr em ph dob doe db).2 =
      some ⟨db.nextId, fn, ln, addr, em, ph, dob, doe⟩ := by
  rw [add_patient_fresh fn ln addr em ph dob doe db hfresh]
  unfold get_patient_by_id
  rw [find?_append_none _ _ _ (fun r hr => by
    have hlt := hWF r hr
    simp [Nat.ne_of_lt hlt])]
  simp

/-! ## Claim C6: phone validation -/

/-- Claim C6 counterexample: the Python anchor `$` under `re.match` also
matches just before a single trailing newline, so `is_valid_phone`
accepts a 10-digit string followed by a newline, although the claimed
grammar (optional plus, 10 to 15 digits, nothing else) rejects it. -/
theorem is_valid_phone_trailing_newline :
    is_valid_phone "1234567890\n" = true ∧ ¬ PhoneShapeL ("1234567890\n".data) := by
  refine ⟨by decide, fun h => ?_⟩
  have h2 := (phoneCore_iff ("1234567890\n".data)).mpr h
  exact absurd h2 (by decide)

/-- Claim C6, amended: `is_valid_phone s` is true iff `s` is an optional
leading plus followed by exactly 10 to 15 decimal digits, either alone
or followed by one trailing newline. -/
theorem is_valid_phone_iff (s : String) :
    is_valid_phone s = true ↔
      (PhoneShapeL s.data ∨ ∃ t, s.data = t ++ ['\n'] ∧ PhoneShapeL t) := by
  rw [show is_valid_phone s = pyMatchDollar phoneCore s.data from rfl]
  rw [pyMatchDollar_iff]
  exact or_congr (phoneCore_iff s.data)
    (exists_congr fun t => and_congr_right fun _ => phoneCore_iff t)

/-- Claim C6 witness: a plus followed by 11 digits validates. -/
theorem is_valid_phone_iff_witness : is_valid_phone "+12025550173" = true :=
  (is_valid_phone_iff "+12025550173").mpr
    (Or.inl ⟨"12025550173".data, Or.inr (by decide), by decide, by decide, by decide⟩)

/-! ## Claim C7: email validation -/

/-- Claim C7 counterexample: as with the phone pattern, `$` under
`re.match` lets `is_valid_email` accept a well-shaped email followed by
a single trailing newline, which the claimed grammar rejects. -/
theorem is_valid_email_trailing_newline :
    is_valid_email "a@b.co\n" = true ∧ ¬ EmailShapeL ("a@b.co\n".data) := by
  refine ⟨by decide, fun h => ?_⟩
  have h2 := (emailCore_iff ("a@b.co\n".data)).mpr h
  exact absurd h2 (by decide)

/-- Claim C7, amended: `is_valid_email s` is true iff `s` has the shape
local-part, at sign, domain labels, dot, final label of at least two
letters, either alone or followed by one trailing newline. -/
theorem is_valid_email_iff (s : String) :
    is_valid_email s = true ↔
      (EmailShapeL s.data ∨ ∃ t, s.data = t ++ ['\n'] ∧ EmailShapeL t) := by
  rw [show is_valid_email s = pyMatchDollar emailCore s.data from rfl]
  rw [pyMatchDollar_iff]
  exact or_congr (emailCore_iff s.data)
    (exists_congr fun t => and_congr_right fun _ => emailCore_iff t)

/-- Claim C7 witness: a well-shaped address validates. -/
theorem is_valid_email_iff_witness : is_valid_email "ada@care.org" = true :=
  (is_valid_email_iff "ada@care.org").mpr
    (Or.inl ⟨"ada".data, "care".data, "org".data, by decide, by decide, by decide,
      by decide, by decide, by decide, by decide⟩)

/-! ## Claim C1: update on a missing id -/

/-- Claim C1 counterexample: updating id 1 in the empty store matches no
row, and the function reports success `(true, none)` rather than any
NotFound error. -/
theorem update_missing_id_reports_success :
    emptyDB.rows = [] ∧
    update_patient 1 "Ada" "Smith" none "a@x.com" none none (some "2024-01-01") emptyDB
      = ((true, none), emptyDB) :=
  ⟨rfl, by decide⟩

/-- Claim C1, amended: `update_patient` on an id that no stored row has
reports success and leaves the store unchanged (a silent no-op); when
the id exists and the new email equals the email of a different row it
fails with the duplicate-email error and changes nothing. -/
theorem update_patient_missing_id_noop (db : DB) (pid : Nat) (fn ln : String)
    (addr : Option String) (em : String) (ph dob doe : Option String) :
    ((∀ r ∈ db.rows, r.id ≠ pid) →
      update_patient pid fn ln addr em ph dob doe db = ((true, none), db)) ∧
    ((∃ r ∈ db.rows, r.id = pid) → (∃ r ∈ db.rows, r.id ≠ pid ∧ r.email = em) →
      update_patient pid fn ln addr em ph dob doe db
        = ((false, some "Email already exists."), db)) := by
  constructor
  · intro h
    have hany : (db.rows.any fun r => r.id == pid) = false := by
      rw [List.any_eq_false]
      intro r hr
      simpa using h r hr
    simp [update_patient, hany]
  · rintro ⟨r0, hr0, hid⟩ ⟨r1, hr1, hne, hem⟩
    have h1 : (db.rows.any fun r => r.id == pid) = true :=
      List.any_eq_true.mpr ⟨r0, hr0, by simpa using hid⟩
    have h2 : (db.rows.any fun r => !(r.id == pid) && (r.email == em)) = true :=
      List.any_eq_true.mpr ⟨r1, hr1, by simp [hne, hem]⟩
    simp [update_patient, h1, h2]

/-- Claim C1 witness: the no-op succeeds on a store without the id, and
the duplicate-email error fires when updating row 1 to the email of
row 2. -/
theorem update_patient_policy_witness :
    update_patient 9 "N" "M" none "n@m.co" none none (some "2024-03-01") dbSeed
      = ((true, none), dbSeed) ∧
    update_patient 1 "Ada" "Smith" (some "1 Elm St") "b@y.com" none none
        (some "2024-01-01") dbABC
      = ((false, some "Email already exists."), dbABC) :=
  ⟨(update_patient_missing_id_noop dbSeed 9 "N" "M" none "n@m.co" none none
      (some "2024-03-01")).1 (by decide),
   (update_patient_missing_id_noop dbABC 1 "Ada" "Smith" (some "1 Elm St") "b@y.com"
      none none (some "2024-01-01")).2 (by decide) (by decide)⟩

/-! ## Claim C2: the return value of add -/

/-- Claim C2 counterexample: a successful `add_patient` returns the same
value `(true, none)` whatever id the new row received (1 in the empty
store, 6 in `dbSeed`), so the new id is not returned, only a success
flag. -/
theorem add_patient_returns_flag_not_id :
    (add_patient "A" "B" none "a@b.co" none none (some "2024-01-02") emptyDB).1
      = (true, none) ∧
    (add_patient "A" "B" none "a@b.co" none none (some "2024-01-02") dbSeed).1
      = (true, none) ∧
    ((add_patient "A" "B" none "a@b.co" none none (some "2024-01-02") emptyDB).2.rows.map
        fun r => r.id) = [1] ∧
    ((add_patient "A" "B" none "a@b.co" none none (some "2024-01-02") dbSeed).2.rows.map
        fun r => r.id) = [5, 6] := by
  decide

/-- Claim C2, amended: on a fresh email `add_patient` succeeds returning
the flag `(true, none)` (not the id); the new row is appended with the
next AUTOINCREMENT id and is retrievable from the store by that id. -/
theorem add_patient_success_flag_and_row (db : DB) (fn ln : String)
    (addr : Option String) (em : String) (ph dob doe : Option String)
    (hWF : DB.WF db) (hfresh : ∀ r ∈ db.rows, r.email ≠ em) :
    (add_patient fn ln addr em ph dob doe db).1 = (true, none) ∧
    (add_patient fn ln addr em ph dob doe db).2.rows
      = db.rows ++ [⟨db.nextId, fn, ln, addr, em, ph, dob, doe⟩] ∧
    get_patient_by_id db.nextId (add_patient fn ln addr em ph dob doe db).2
      = some ⟨db.nextId, fn, ln, addr, em, ph, dob, doe⟩ := by
  refine ⟨?_, ?_, get_after_add fn ln addr em ph dob doe db hWF hfresh⟩
  · rw [add_patient_fresh fn ln addr em ph dob doe db hfresh]
  · rw [add_patient_fresh fn ln addr em ph dob doe db hfresh]

/-- Claim C2 witness: adding to the empty store returns the flag and the
row is stored under id 1. -/
theorem add_patient_success_flag_witness :
    (add_patient "A" "B" none "a@b.co" none none (some "2024-01-02") emptyDB).1
      = (true, none) ∧
    get_patient_by_id 1 (add_patient "A" "B" none "a@b.co" none none
        (some "2024-01-02") emptyDB).2
      = some ⟨1, "A", "B", none, "a@b.co", none, none, some "2024-01-02"⟩ := by
  have h := add_patient_success_flag_and_row emptyDB "A" "B" none "a@b.co" none none
    (some "2024-01-02") (by decide : ∀ r ∈ emptyDB.rows, r.id < emptyDB.nextId)
    (by decide)
  exact ⟨h.1, h.2.2⟩

/-! ## Claim C4: duplicate email on add -/

/-- Claim C4: when some stored row already has the email, `add_patient`
returns the duplicate-email error and leaves the store unchanged. -/
theorem add_patient_duplicate_email_rejected (db : DB) (fn ln : String)
    (addr : Option String) (em : String) (ph dob doe : Option String)
    (h : ∃ r ∈ db.rows, r.email = em) :
    add_patient fn ln addr em ph dob doe db
      = ((false, some "Email already exists."), db) := by
  obtain ⟨r, hr, he⟩ := h
  have hany : (db.rows.any fun r => r.email == em) = true :=
    List.any_eq_true.mpr ⟨r, hr, by simpa using he⟩
  simp [add_patient, hany]

/-- Claim C4 witness: re-adding the seeded email is rejected and the
store is unchanged. -/
theorem add_patient_duplicate_email_witness :
    add_patient "X" "Y" none "e@f.co" none none (some "2024-02-02") dbSeed
      = ((false, some "Email already exists."), dbSeed) :=
  add_patient_duplicate_email_rejected dbSeed "X" "Y" none "e@f.co" none none
    (some "2024-02-02") (by decide)

/-! ## Claim C8: add then get round-trip -/

/-- Claim C8: after a successful `add_patient` (fresh email, well-formed
store), `get_patient_by_id` on the new id returns a record whose every
stored field equals the corresponding input field. -/
theorem add_then_get_roundtrip (db : DB) (fn ln : String) (addr : Option String)
    (em : String) (ph dob doe : Option String) (hWF : DB.WF db)
    (hfresh : ∀ r ∈ db.rows, r.email ≠ em) :
    ∃ p, get_patient_by_id db.nextId (add_patient fn ln addr em ph dob doe db).2
        = some p ∧
      p.first_name = fn ∧ p.last_name = ln ∧ p.address = addr ∧ p.email = em ∧
      p.phone = ph ∧ p.date_of_birth = dob ∧ p.date_of_entry = doe :=
  ⟨⟨db.nextId, fn, ln, addr, em, ph, dob, doe⟩,
   get_after_add fn ln addr em ph dob doe db hWF hfresh,
   rfl, rfl, rfl, rfl, rfl, rfl, rfl⟩

/-- Claim C8 witness: the round-trip on the seeded store, new id 6. -/
theorem add_then_get_roundtrip_witness :
    ∃ p, get_patient_by_id 6 (add_patient "Gil" "Hart" none "g@h.ij" none none
        (some "2024-05-05") dbSeed).2 = some p ∧
      p.first_name = "Gil" ∧ p.email = "g@h.ij" := by
  obtain ⟨p, hp, h1, h2, h3, h4, h5, h6, h7⟩ :=
    add_then_get_roundtrip dbSeed "Gil" "Hart" none "g@h.ij" none none
      (some "2024-05-05") (by decide : ∀ r ∈ dbSeed.rows, r.id < dbSeed.nextId)
      (by decide)
  exact ⟨p, hp, h1, h4⟩

/-! ## Claim C3: the date_of_entry invariant -/

/-- Claim C3: after the migration step every stored row has a non-null
`date_of_entry`; every row that was null at migration time now carries
the migration-run date; and the invariant is preserved by every add and
update that supplies the (required) `date_of_entry` field and by every
delete. -/
theorem date_of_entry_invariant :
    (∀ today db, NoNullDoe (migrate_db today db)) ∧
    (∀ today db, ∀ r ∈ db.rows, r.date_of_entry = none →
      ({ r with date_of_entry := some today } : Patient) ∈ (migrate_db today db).rows) ∧
    (∀ db fn ln addr em ph dob d, NoNullDoe db →
      NoNullDoe (add_patient fn ln addr em ph dob (some d) db).2) ∧
    (∀ db pid fn ln addr em ph dob d, NoNullDoe db →
      NoNullDoe (update_patient pid fn ln addr em ph dob (some d) db).2) ∧
    (∀ db pid, NoNullDoe db → NoNullDoe (delete_patient pid db)) := by
  refine ⟨?_, ?_, ?_, ?_, ?_⟩
  · intro today db r hr
    simp only [migrate_db, List.mem_map] at hr
    obtain ⟨r0, _, rfl⟩ := hr
    cases h0 : r0.date_of_entry with
    | none => simp [h0]
    | some d => simp [h0]
  · intro today db r hr h0
    simp only [migrate_db, List.mem_map]
    exact ⟨r, hr, by simp [h0]⟩
  · intro db fn ln addr em ph dob d hdb r hr
    unfold add_patient at hr
    split at hr
    · exact hdb r hr
    · dsimp only at hr
      rcases List.mem_append.mp hr with h | h
      · exact hdb r h
      · rw [List.mem_singleton.mp h]
        simp
  · intro db pid fn ln addr em ph dob d hdb r hr
    unfold update_patient at hr
    split at hr
    · split at hr
      · exact hdb r hr
      · dsimp only at hr
        obtain ⟨r0, hr0, rfl⟩ := List.mem_map.mp hr
        by_cases hid : (r0.id == pid) = true
        · simp [hid]
        · have hid2 : (r0.id == pid) = false := by simpa using hid
          simpa [hid2] using hdb r0 hr0
    · exact hdb r hr
  · intro db pid hdb r hr
    unfold delete_patient at hr
    exact hdb r (List.mem_filter.mp hr).1

/-- Claim C3 witness: the null row of `dbNull` is backfilled with the
migration date, and a delete preserves the invariant on `dbABC`. -/
theorem date_of_entry_invariant_witness :
    ({ pNull with date_of_entry := some "2026-02-03" } : Patient)
        ∈ (migrate_db "2026-02-03" dbNull).rows ∧
    NoNullDoe (delete_patient 2 dbABC) :=
  ⟨date_of_entry_invariant.2.1 "2026-02-03" dbNull pNull (by decide) rfl,
   date_of_entry_invariant.2.2.2.2 dbABC 2
     (by decide : ∀ r ∈ dbABC.rows, r.date_of_entry ≠ none)⟩

/-! ## Claim C9: distinct email domains -/

instance : IsTotal String (fun a b => a ≤ b) := ⟨fun a b => le_total a b⟩

instance : IsTrans String (fun a b => a ≤ b) := ⟨fun _ _ _ => le_trans⟩

/-- Claim C9: `get_all_email_domains` is sorted, duplicate-free, and
contains exactly the domains (the `split("@")[1]` part) of the stored
emails that contain an at sign. -/
theorem get_all_email_domains_spec (db : DB) :
    (get_all_email_domains db).Sorted (fun a b => a ≤ b) ∧
    (get_all_email_domains db).Nodup ∧
    (∀ d, d ∈ get_all_email_domains db ↔ ∃ r ∈ db.rows, emailDomain r.email = some d) := by
  refine ⟨List.sorted_insertionSort _ _, ?_, ?_⟩
  · exact (List.perm_insertionSort _ _).nodup_iff.mpr (List.nodup_dedup _)
  · intro d
    unfold get_all_email_domains
    rw [(List.perm_insertionSort _ _).mem_iff]
    rw [List.mem_dedup, List.mem_filterMap]
    constructor
    · rintro ⟨e, he, hd⟩
      rw [List.mem_dedup, List.mem_map] at he
      obtain ⟨r, hr, rfl⟩ := he
      exact ⟨r, hr, hd⟩
    · rintro ⟨r, hr, hd⟩
      exact ⟨r.email, List.mem_dedup.mpr (List.mem_map.mpr ⟨r, hr, rfl⟩), hd⟩

/-- Claim C9 witness: on `dbABC` the result is sorted and contains the
domain of row A. -/
theorem get_all_email_domains_witness :
    (get_all_email_domains dbABC).Sorted (fun a b => a ≤ b) ∧
    "x.com" ∈ get_all_email_domains dbABC := by
  have h := get_all_email_domains_spec dbABC
  exact ⟨h.1, (h.2.2 "x.com").mpr ⟨pA, by decide, by decide⟩⟩

/-! ## Claim C10: search with no active filters is list_all -/

/-- Claim C10: with an empty free-text query and both filters at a
sentinel value (the "All" option of the UI, or not set at all), the
search returns exactly the `get_all_patients` sequence. -/
theorem search_patients_no_filters_eq_get_all (db : DB) :
    search_patients "" (some "All") (some "All") db = get_all_patients db ∧
    search_patients "" none none db = get_all_patients db := by
  constructor
  · have h : db.rows.filter (searchKeep "" (some "All") (some "All")) = db.rows :=
      List.filter_eq_self.mpr fun r _ => by simp [searchKeep, lnClauseB, edClauseB]
    unfold search_patients get_all_patients
    rw [h]
  · have h : db.rows.filter (searchKeep "" none none) = db.rows :=
      List.filter_eq_self.mpr fun r _ => by simp [searchKeep, lnClauseB, edClauseB]
    unfold search_patients get_all_patients
    rw [h]

/-- Claim C10 witness: the equality on the concrete store `dbZ`. -/
theorem search_patients_no_filters_witness :
    search_patients "" none none dbZ = get_all_patients dbZ :=
  (search_patients_no_filters_eq_get_all dbZ).2

/-! ## Claim C5: search semantics -/

/-- Claim C5 counterexample: the free-text query goes through SQL LIKE,
so a query consisting of the wildcard percent matches every row: the
single row of `dbZ` is returned although the query string occurs as a
substring of none of its searched fields (its phone is null). -/
theorem search_patients_wildcard_counterexample :
    search_patients "%" none none dbZ = [pZ] ∧
    pZ.phone = none ∧
    ¬ ("%".data <:+: pZ.first_name.data) ∧
    ¬ ("%".data <:+: pZ.last_name.data) ∧
    ¬ ("%".data <:+: pZ.email.data) :=
  ⟨by decide, rfl, by decide, by decide, by decide⟩

/-- Claim C5, amended: for wildcard-free filter values, a row is kept
iff the free-text query (when non-empty) occurs ASCII-case-insensitively
as a substring of first name, last name, email, or (non-null) phone, AND
the last-name filter (when active, i.e. set, non-empty and not "All")
matches exactly, AND the email ends case-insensitively with the at sign
followed by the domain filter (when active); the result is ordered by
descending id. -/
theorem search_patients_characterization (db : DB) (q : String) (lnf edf : Option String)
    (hq : noWild q.data = true) (hed : ∀ s, edf = some s → noWild s.data = true) :
    (∀ r, r ∈ search_patients q lnf edf db ↔
      (r ∈ db.rows ∧
        (q = "" ∨
         lowerL q.data <:+: lowerL r.first_name.data ∨
         lowerL q.data <:+: lowerL r.last_name.data ∨
         lowerL q.data <:+: lowerL r.email.data ∨
         (∃ p, r.phone = some p ∧ lowerL q.data <:+: lowerL p.data)) ∧
        (∀ l, lnf = some l → l ≠ "" → l ≠ "All" → r.last_name = l) ∧
        (∀ s, edf = some s → s ≠ "" → s ≠ "All" →
          lowerL ('@' :: s.data) <:+ lowerL r.email.data))) ∧
    (search_patients q lnf edf db).Sorted idDesc := by
  constructor
  · intro r
    rw [mem_search_iff, searchKeep_iff q lnf edf r hq hed]
  · exact List.sorted_insertionSort _ _

/-- Claim C5 witness: the AND-combination example of the spec: on rows
A (Smith, a@x.com), B (Smith, b@y.com), C (Jones, c@x.com), filtering by
last name Smith and domain x.com returns exactly row A, and row A
satisfies the characterization. -/
theorem search_patients_smith_example :
    search_patients "" (some "Smith") (some "x.com") dbABC = [pA] ∧
    pA ∈ search_patients "" (some "Smith") (some "x.com") dbABC := by
  constructor
  · decide
  · have h := (search_patients_characterization dbABC "" (some "Smith") (some "x.com")
      (by decide) (fun s hs => by cases hs; decide)).1 pA
    refine h.mpr ⟨by decide, Or.inl rfl, ?_, ?_⟩
    · intro l hl hh1 hh2
      cases hl
      rfl
    · intro s hs hh1 hh2
      cases hs
      decide
